import Mathlib

/-!
# Verification of the pharmacy stock-adjustment and sale-creation logic

A shallow embedding of the core logic of the Importer-Pharmacy backend:

* `adjust_stock` — `SaleSerializer.adjust_stock` (pharmacy/serializers.py):
  mutates the two stock counters of a `Medicine` row for one sale line item.
* `create_sale_items_and_adjust_stock`, `createSale` —
  `SaleSerializer.create_sale_items_and_adjust_stock` and
  `SaleSerializer.create` (pharmacy/serializers.py): the sale orchestrator,
  wrapped in `transaction.atomic`.
* `generate_voucher_number` — `Sale.generate_voucher_number`
  (pharmacy/models.py): per-day sequential voucher numbers.
* `validateSale` — the DRF validation stage of `SaleSerializer`
  (`validate`, `validate_discount_percentage`, the `input_items` field).

Python integers are unbounded, so stock counters are embedded as `Int`
(the Django field types declare them non-negative, but the Python
arithmetic in `adjust_stock` is plain `Int` arithmetic and can produce
negative intermediate and final values; that behaviour is exactly what
some of the theorems below are about).  Python `Decimal` values occurring
here stay within the 28-digit default context, so `Decimal` arithmetic is
exact and is embedded as `Rat`; `Decimal.quantize(Decimal("0.01"))` with
the default context rounding (`ROUND_HALF_EVEN`) is embedded as
`quantizeCents`.  Python `//` is floor division and is embedded as
`Int.fdiv`.
-/

/-!
The `Rat` arithmetic operations of the standard library are marked
`@[irreducible]` purely as an elaboration-performance hint; the witnesses
and counterexamples below evaluate concrete `Rat` computations with
`decide`, which needs them to unfold.  Restoring the default
reducibility changes no definition and no statement.
-/
set_option allowUnsafeReducibility true in
attribute [semireducible] Rat.inv Rat.mul Rat.add Rat.sub

/-- The fields of a `Medicine` row (pharmacy/models.py) used by the sale
logic: the two stock counters, the carton conversion factor and the
selling price.  `mid` stands for the primary key. -/
structure Medicine where
  mid : Nat
  stock_carton : Int
  units_per_carton : Int
  stock_in_unit : Int
  price : Rat
deriving DecidableEq, Repr

/-- `stock_carton * units_per_carton + stock_in_unit`, the spec's
`totalUnits()` (`Medicine.total_stock_units` in pharmacy/models.py). -/
def totalUnits (m : Medicine) : Int :=
  m.stock_carton * m.units_per_carton + m.stock_in_unit

/-- A well-formed ledger state as stored by the Django field types:
`stock_carton` and `stock_in_unit` are `PositiveIntegerField`s (hence
non-negative) and `units_per_carton` is at least 1. -/
def WfMedicine (m : Medicine) : Prop :=
  0 ≤ m.stock_carton ∧ 1 ≤ m.units_per_carton ∧ 0 ≤ m.stock_in_unit

instance (m : Medicine) : Decidable (WfMedicine m) := by
  unfold WfMedicine; infer_instance

/-- The two business-rule errors `adjust_stock` can raise (both surface as
`serializers.ValidationError` in the source; the spec names them
`InsufficientStock` and `InsufficientCartons`). -/
inductive StockError where
  | insufficientStock
  | insufficientCartons
deriving DecidableEq, Repr

/-- Result of `adjust_stock`.  The source mutates the in-memory `medicine`
object and raises on failure; the embedding returns the object's state in
both cases, so that the error case records the counters as they stand at
the moment the exception is raised. -/
inductive AdjustResult where
  | ok (m : Medicine)
  | error (e : StockError) (m : Medicine)
deriving DecidableEq, Repr

/-- `SaleSerializer.adjust_stock` (pharmacy/serializers.py, lines
188–246), translated line by line.

* `units_per_carton or 0` in the source maps a falsy value (`0`) to `0`,
  so it is the identity on the stored integer.
* The final `is_out_of_stock` attribute assignment and `medicine.save()`
  do not touch the two counters and are not part of the counter state.
* `(needed_units + units_per_carton - 1) // units_per_carton` is Python
  floor division, i.e. `Int.fdiv`.  (With `units_per_carton = 0` the
  source would raise `ZeroDivisionError`; every theorem below assumes a
  well-formed ledger with `units_per_carton ≥ 1`.) -/
def adjust_stock (m : Medicine) (qty : Int) (sale_type : String) : AdjustResult :=
  let upc := m.units_per_carton
  let total_units_before := m.stock_carton * upc + m.stock_in_unit
  let required_units := if sale_type = "carton" then qty * upc else qty
  if total_units_before < required_units then
    .error .insufficientStock m
  else if sale_type = "carton" then
    let c := m.stock_carton - qty
    let u := m.stock_in_unit - qty * upc
    let u := if u < 0 then 0 else u
    .ok { m with stock_carton := c, stock_in_unit := u }
  else if sale_type = "unit" then
    if qty ≤ m.stock_in_unit then
      .ok { m with stock_in_unit := m.stock_in_unit - qty }
    else
      let needed_units := qty - m.stock_in_unit
      let cartons_to_break := (needed_units + upc - 1).fdiv upc
      if m.stock_carton < cartons_to_break then
        .error .insufficientCartons m
      else
        .ok { m with
              stock_carton := m.stock_carton - cartons_to_break,
              stock_in_unit := cartons_to_break * upc - needed_units }
  else
    .ok m

/-- One element of the raw `input_items` list sent to `SaleSerializer`.
`input_items` is declared as a plain `serializers.ListField`, so its
elements reach the serializer as unvalidated dicts; `sale_type` and
`price` model `item.get("sale_type", "unit")` / `item.get("price", None)`
in `create_sale_items_and_adjust_stock`. -/
structure RawItem where
  medicine : Nat
  quantity : Int
  sale_type : Option String
  price : Option Rat
deriving DecidableEq, Repr

/-- The rejections the `SaleSerializer` validation stage can produce. -/
inductive ValError where
  | discountOutOfRange
  | emptyItems
deriving DecidableEq, Repr

/-- `SaleSerializer.validate_discount_percentage`: `None` becomes `0.00`,
values outside `[0, 100]` are rejected. -/
def validate_discount_percentage (v : Option Rat) : Except ValError Rat :=
  match v with
  | none => .ok 0
  | some d => if d < 0 ∨ 100 < d then .error .discountOutOfRange else .ok d

/-- The `SaleSerializer` validation stage (`is_valid`): the
`discount_percentage` field validator followed by `validate`, which only
checks that `input_items` is non-empty.  No per-item check runs here:
`input_items` is a bare `ListField` and `SaleCreateItemSerializer` (which
declares `quantity` with `min_value=1`) is never attached to it.  The
stage is a pure function of the request; it mutates nothing. -/
def validateSale (input_items : List RawItem) (discount : Option Rat) :
    Except ValError (List RawItem × Rat) :=
  match validate_discount_percentage discount with
  | .error e => .error e
  | .ok d => if input_items = [] then .error .emptyItems else .ok (input_items, d)

/-- `Decimal.quantize(Decimal("0.01"))` under Python's default context
rounding mode `ROUND_HALF_EVEN`, applied to `100 * x`: the nearest
integer, ties to the even integer.  All `Decimal` values reaching the
`quantize` calls in `SaleSerializer.create` stay far below the default
28-digit context precision, so the Python arithmetic is exact and `Rat`
models it faithfully. -/
def roundHalfEvenInt (x : Rat) : Int :=
  let f := x.floor
  let r := x - f
  if r < 1 / 2 then f
  else if 1 / 2 < r then f + 1
  else if f % 2 = 0 then f else f + 1

/-- `value.quantize(Decimal("0.01"))` with the default context: round to
a whole number of cents, ties to even. -/
def quantizeCents (x : Rat) : Rat :=
  (roundHalfEvenInt (100 * x) : Rat) / 100

/-- `x` is a whole number of cents (what a Django
`DecimalField(decimal_places=2)` column can store). -/
def IsCents (x : Rat) : Prop := ∃ n : Int, x = n / 100

/-- Modelled from the spec's words for the C7 comparison: "rounded to 2
decimal places using round-half-up at the cent".  Round-half-up sends a
tie upward: `⌊100 x + 1/2⌋ / 100`. -/
def specRoundHalfUpCents (x : Rat) : Rat :=
  ((100 * x + 1 / 2).floor : Rat) / 100

/-- The ASCII character of the decimal digit `k` (`k < 10`). -/
def digitChar (k : Nat) : Char := Char.ofNat (48 + k)

/-- Digit extraction with structural fuel (`fuel ≥ n` always suffices:
`n / 10 ≤ fuel - 1` whenever `10 ≤ n ≤ fuel`), so that terms reduce
definitionally. -/
def decimalDigitsFuel : Nat → Nat → List Nat
  | 0, n => [n]
  | fuel + 1, n => if n < 10 then [n] else decimalDigitsFuel fuel (n / 10) ++ [n % 10]

/-- The decimal digits of `n`, most significant first (the digits Python
produces for `"%d" % n`). -/
def decimalDigits (n : Nat) : List Nat := decimalDigitsFuel n n

/-- Python's `f"{n:04d}"`: the decimal digits of `n`, left-padded with
`'0'` to at least four characters. -/
def pad4Chars (n : Nat) : List Char :=
  let ds := (decimalDigits n).map digitChar
  List.replicate (4 - ds.length) '0' ++ ds

/-- ASCII reading of Python's `str.isdigit` for one character. -/
def isDigitChar (c : Char) : Bool := decide ('0' ≤ c ∧ c ≤ '9')

/-- Python's `int(s)` on a string of decimal digits. -/
def parseNatChars (cs : List Char) : Nat :=
  cs.foldl (fun a c => a * 10 + (c.toNat - 48)) 0

/-- Python's `s.split('-')[-1]`: the maximal suffix of `s` containing no
`'-'` (the whole string when it has none). -/
def afterLastDash (cs : List Char) : List Char :=
  (cs.reverse.takeWhile (fun c => c ≠ '-')).reverse

/-- Python's `s.startswith(p)`. -/
def startsWithStr (s p : String) : Bool :=
  decide (s.data.take p.data.length = p.data)

/-- Lexicographic comparison of character lists by code point: the order
Python string comparison and the database's `ORDER BY` on an ASCII
voucher column use. -/
def lexLt : List Char → List Char → Bool
  | [], [] => false
  | [], _ :: _ => true
  | _ :: _, [] => false
  | a :: as, b :: bs => if a < b then true else if b < a then false else lexLt as bs

/-- Lexicographic comparison of strings, see `lexLt`. -/
def strLt (s t : String) : Bool := lexLt s.data t.data

/-- `Sale.generate_voucher_number` (pharmacy/models.py, lines 145–158).
`todayStr` stands for `timezone.now().strftime("%Y%m%d")`; `existing` for
the `voucher_number` column of the persisted `Sale` rows.  The query
`filter(voucher_number__startswith=prefix).order_by('-voucher_number')
.first()` is the lexicographically greatest voucher with the day's
prefix. -/
def generate_voucher_number (todayStr : String) (existing : List String) : String :=
  let pfx := "SLS-" ++ todayStr
  let cands := existing.filter (fun s => startsWithStr s pfx)
  let last_sale := cands.foldl
    (fun acc s =>
      match acc with
      | none => some s
      | some t => if strLt t s then some s else some t)
    none
  let last_number :=
    match last_sale with
    | some s =>
        let tail := afterLastDash s.data
        if tail ≠ [] ∧ tail.all isDigitChar = true then parseNatChars tail else 0
    | none => 0
  pfx ++ "-" ++ String.mk (pad4Chars (last_number + 1))

/-- The voucher string `SLS-<date>-<seq padded to 4 digits>`. -/
def voucherFor (dateStr : String) (n : Nat) : String :=
  "SLS-" ++ dateStr ++ "-" ++ String.mk (pad4Chars n)

/-- A persisted `Sale` row: the fields `SaleSerializer.create` writes.
`sid` stands for the primary key (the embedding numbers sales by
insertion order); `sold_by`/`discounted_by`/customer fields do not
interact with the verified claims and are omitted. -/
structure SaleRec where
  sid : Nat
  voucher_number : String
  discount_percentage : Rat
  base_price : Rat
  discounted_amount : Rat
  total_amount : Rat
deriving DecidableEq, Repr

/-- A persisted `SaleItem` row (pharmacy/models.py, lines 165–176):
quantity, the price frozen at sale time, and the raw `sale_type` string
(`SaleItem.objects.create` performs no choice validation, so any string
is stored). -/
structure SaleItemRec where
  sale : Nat
  medicine : Nat
  quantity : Int
  price : Rat
  sale_type : String
deriving DecidableEq, Repr

/-- The relational state the sale orchestrator reads and writes. -/
structure DB where
  medicines : List Medicine
  sales : List SaleRec
  sale_items : List SaleItemRec
deriving DecidableEq, Repr

/-- The errors that abort `SaleSerializer.create` (all raised as
`serializers.ValidationError`). -/
inductive SaleError where
  | doesNotExist (mid : Nat)
  | stock (e : StockError)
deriving DecidableEq, Repr

/-- `SaleSerializer.create_sale_items_and_adjust_stock`
(pharmacy/serializers.py, lines 251–285), one line item at a time:
look up the medicine by primary key (`select_for_update` row locking is
serialisation, invisible to this sequential embedding), run
`adjust_stock`, persist the updated medicine, freeze the unit price
(caller-supplied or the medicine's current price — `adjust_stock` does
not touch `price`), and persist the `SaleItem`.  Errors propagate
immediately; the partially mutated database built so far is abandoned to
the caller's transaction. -/
def create_sale_items_and_adjust_stock :
    DB → Nat → List RawItem → Except SaleError (DB × List SaleItemRec)
  | db, _, [] => .ok (db, [])
  | db, sid, item :: rest =>
    match db.medicines.find? (fun m => m.mid == item.medicine) with
    | none => .error (.doesNotExist item.medicine)
    | some medicine =>
      let qty := item.quantity
      let sale_type := item.sale_type.getD "unit"
      match adjust_stock medicine qty sale_type with
      | .error e _ => .error (.stock e)
      | .ok medicine' =>
        let db' := { db with
          medicines := db.medicines.map
            (fun x : Medicine => if x.mid == item.medicine then medicine' else x) }
        let unit_price := item.price.getD medicine.price
        let si : SaleItemRec :=
          ⟨sid, item.medicine, qty, unit_price, sale_type⟩
        let db'' := { db' with sale_items := db'.sale_items ++ [si] }
        match create_sale_items_and_adjust_stock db'' sid rest with
        | .error e => .error e
        | .ok (dbf, created) => .ok (dbf, si :: created)

/-- `SaleSerializer.create` (pharmacy/serializers.py, lines 290–326),
decorated with `@transaction.atomic`.  The `Sale` row is created first
(its `save` assigns the voucher from the already persisted sales), the
line items are processed, then the totals are computed and the `Sale`
row updated.  Any `ValidationError` raised inside aborts the transaction:
the external persistence layer's documented rollback contract restores
the database to its pre-call state, which the embedding renders by
returning the input `db` alongside the error.  The first component of
the result is the post-call database; the `discounted_by` attribution is
outside the embedded state. -/
def createSale (today : String) (db : DB) (items : List RawItem)
    (discount_percentage : Rat) :
    DB × Except SaleError (SaleRec × List SaleItemRec) :=
  let voucher := generate_voucher_number today (db.sales.map (fun s => s.voucher_number))
  let sid := db.sales.length
  let sale0 : SaleRec := ⟨sid, voucher, discount_percentage, 0, 0, 0⟩
  let db1 := { db with sales := db.sales ++ [sale0] }
  match create_sale_items_and_adjust_stock db1 sid items with
  | .error e => (db, .error e)
  | .ok (db2, created) =>
    let base_price := (created.map (fun i => (i.quantity : Rat) * i.price)).sum
    let discounted_amount := quantizeCents (base_price * (discount_percentage / 100))
    let total_amount := quantizeCents (base_price - discounted_amount)
    let sale1 := { sale0 with
      base_price := quantizeCents base_price,
      discounted_amount := discounted_amount,
      total_amount := total_amount }
    let db3 := { db2 with
      sales := db2.sales.map (fun s => if s.sid == sid then sale1 else s) }
    (db3, .ok (sale1, created))

/-- Equality of `Except` results is decidable componentwise. -/
instance exceptDecidableEq {a b : Type} [DecidableEq a] [DecidableEq b] :
    DecidableEq (Except a b)
  | .error x, .error y => decidable_of_iff (x = y) (by simp)
  | .error _, .ok _ => isFalse (fun h => Except.noConfusion h)
  | .ok _, .error _ => isFalse (fun h => Except.noConfusion h)
  | .ok x, .ok y => decidable_of_iff (x = y) (by simp)

/-- Characterisation of the ceiling division `(a + b - 1) // b` used for
`cartons_to_break`: for `b > 0` it is the least integer `q` with
`a ≤ q * b`. -/
theorem ceil_fdiv_bounds (a b : Int) (hb : 0 < b) :
    a ≤ (a + b - 1).fdiv b * b ∧ ((a + b - 1).fdiv b - 1) * b < a := by
  have hb0 : (0 : Int) ≤ b := le_of_lt hb
  rw [Int.fdiv_eq_ediv _ hb0]
  have h1 : b * ((a + b - 1) / b) + (a + b - 1) % b = a + b - 1 :=
    Int.ediv_add_emod _ _
  have h2 : 0 ≤ (a + b - 1) % b := Int.emod_nonneg _ (ne_of_gt hb)
  have h3 : (a + b - 1) % b < b := Int.emod_lt_of_pos _ hb
  constructor
  · nlinarith [h1, h2, h3]
  · nlinarith [h1, h2, h3]

/-- Positivity of `cartons_to_break` on the carton-breaking path. -/
theorem ceil_fdiv_pos (a b : Int) (ha : 0 < a) (hb : 0 < b) :
    0 < (a + b - 1).fdiv b := by
  have h := (ceil_fdiv_bounds a b hb).1
  by_contra hq
  push_neg at hq
  nlinarith [h]

/-- C1 counterexample: from the well-formed ledger state
`stock_carton = 1, units_per_carton = 10, stock_in_unit = 15` (23 total
units), a carton sale of quantity 2 passes the stock check
(`20 ≤ 23`) and returns without error, yet leaves
`stock_carton = -1, stock_in_unit = 0`, i.e. `totalUnits = -10 < 0`. -/
theorem adjust_stock_negative_total_counterexample :
    WfMedicine ⟨0, 1, 10, 15, 0⟩ ∧ (0 : Int) < 2 ∧
    adjust_stock ⟨0, 1, 10, 15, 0⟩ 2 "carton" = .ok ⟨0, -1, 10, 0, 0⟩ ∧
    totalUnits ⟨0, -1, 10, 0, 0⟩ < 0 := by
  refine ⟨?_, ?_, ?_, ?_⟩ <;> decide

/-- Unfolding of `adjust_stock` for a `"unit"` sale: the `sale_type`
string comparisons are resolved. -/
theorem adjust_stock_unit_eq (m : Medicine) (qty : Int) :
    adjust_stock m qty "unit" =
      if m.stock_carton * m.units_per_carton + m.stock_in_unit < qty then
        .error .insufficientStock m
      else if qty ≤ m.stock_in_unit then
        .ok { m with stock_in_unit := m.stock_in_unit - qty }
      else if m.stock_carton <
          (qty - m.stock_in_unit + m.units_per_carton - 1).fdiv m.units_per_carton then
        .error .insufficientCartons m
      else
        .ok { m with
              stock_carton := m.stock_carton -
                (qty - m.stock_in_unit + m.units_per_carton - 1).fdiv m.units_per_carton,
              stock_in_unit :=
                (qty - m.stock_in_unit + m.units_per_carton - 1).fdiv m.units_per_carton *
                  m.units_per_carton - (qty - m.stock_in_unit) } := by
  simp [adjust_stock]

/-- Unfolding of `adjust_stock` for a `"carton"` sale. -/
theorem adjust_stock_carton_eq (m : Medicine) (qty : Int) :
    adjust_stock m qty "carton" =
      if m.stock_carton * m.units_per_carton + m.stock_in_unit < qty * m.units_per_carton then
        .error .insufficientStock m
      else
        .ok { m with
              stock_carton := m.stock_carton - qty,
              stock_in_unit :=
                if m.stock_in_unit - qty * m.units_per_carton < 0 then 0
                else m.stock_in_unit - qty * m.units_per_carton } := by
  simp [adjust_stock]

/-- Unfolding of `adjust_stock` for any `sale_type` other than `"unit"`
and `"carton"`: after the stock check nothing happens. -/
theorem adjust_stock_other_eq (m : Medicine) (qty : Int) (st : String)
    (h1 : st ≠ "carton") (h2 : st ≠ "unit") :
    adjust_stock m qty st =
      if m.stock_carton * m.units_per_carton + m.stock_in_unit < qty then
        .error .insufficientStock m
      else .ok m := by
  simp [adjust_stock, h1, h2]

/-- C1 (amended): starting from a well-formed ledger state, a successful
`adjust_stock` call with positive quantity leaves both counters and
`totalUnits` non-negative, provided a carton sale does not request more
cartons than `stock_carton` holds (without that proviso the clamp can
drive `stock_carton` and `totalUnits` negative, see the counterexample). -/
theorem adjust_stock_total_nonneg (m m' : Medicine) (qty : Int) (st : String)
    (hwf : WfMedicine m) (hq : 0 < qty)
    (hst : st = "unit" ∨ (st = "carton" ∧ qty ≤ m.stock_carton))
    (h : adjust_stock m qty st = .ok m') :
    0 ≤ m'.stock_carton ∧ 0 ≤ m'.stock_in_unit ∧ 0 ≤ totalUnits m' := by
  obtain ⟨hc, hupc, hu⟩ := hwf
  rcases hst with hst | ⟨hst, hqc⟩ <;> subst hst
  · rw [adjust_stock_unit_eq] at h
    by_cases h1 : m.stock_carton * m.units_per_carton + m.stock_in_unit < qty
    · rw [if_pos h1] at h; exact AdjustResult.noConfusion h
    rw [if_neg h1] at h
    push_neg at h1
    by_cases h2 : qty ≤ m.stock_in_unit
    · rw [if_pos h2] at h
      rw [AdjustResult.ok.injEq] at h
      subst h
      refine ⟨?_, ?_, ?_⟩ <;> simp only [totalUnits] <;> omega
    rw [if_neg h2] at h
    push_neg at h2
    by_cases h3 : m.stock_carton <
        (qty - m.stock_in_unit + m.units_per_carton - 1).fdiv m.units_per_carton
    · rw [if_pos h3] at h; exact AdjustResult.noConfusion h
    rw [if_neg h3] at h
    push_neg at h3
    rw [AdjustResult.ok.injEq] at h
    subst h
    have hb := ceil_fdiv_bounds (qty - m.stock_in_unit) m.units_per_carton (by omega)
    refine ⟨?_, ?_, ?_⟩ <;> simp only [totalUnits]
    · omega
    · omega
    · nlinarith [hb.1]
  · rw [adjust_stock_carton_eq] at h
    by_cases h1 : m.stock_carton * m.units_per_carton + m.stock_in_unit <
        qty * m.units_per_carton
    · rw [if_pos h1] at h; exact AdjustResult.noConfusion h
    rw [if_neg h1] at h
    push_neg at h1
    rw [AdjustResult.ok.injEq] at h
    subst h
    refine ⟨?_, ?_, ?_⟩ <;> simp only [totalUnits]
    · omega
    · split <;> omega
    · split <;> nlinarith

/-- Witness for `adjust_stock_total_nonneg` at the state
`stock_carton = 2, units_per_carton = 10, stock_in_unit = 3` with a unit
sale of 5. -/
theorem adjust_stock_total_nonneg_witness :
    WfMedicine ⟨0, 2, 10, 3, 0⟩ ∧ (0 : Int) < 5 ∧
    (0 ≤ (Medicine.mk 0 1 10 8 0).stock_carton ∧
     0 ≤ (Medicine.mk 0 1 10 8 0).stock_in_unit ∧
     0 ≤ totalUnits (Medicine.mk 0 1 10 8 0)) :=
  ⟨by decide, by decide,
    adjust_stock_total_nonneg ⟨0, 2, 10, 3, 0⟩ ⟨0, 1, 10, 8, 0⟩ 5 "unit"
      (by decide) (by decide) (Or.inl rfl) (by decide)⟩

/-- C2 counterexample (the spec's own second example scenario): from
`stock_carton = 2, units_per_carton = 10, stock_in_unit = 3` (23 total
units), a successful carton sale of quantity 1 leaves 10 total units, a
decrease of 13, not the claimed `q * upc = 10`: the clamp destroys the 3
loose units. -/
theorem adjust_stock_carton_conservation_counterexample :
    WfMedicine ⟨0, 2, 10, 3, 0⟩ ∧ (0 : Int) < 1 ∧
    adjust_stock ⟨0, 2, 10, 3, 0⟩ 1 "carton" = .ok ⟨0, 1, 10, 0, 0⟩ ∧
    totalUnits ⟨0, 2, 10, 3, 0⟩ - totalUnits ⟨0, 1, 10, 0, 0⟩ = 13 ∧
    (13 : Int) ≠ 1 * 10 := by
  refine ⟨?_, ?_, ?_, ?_, ?_⟩ <;> decide

/-- C2 (amended): for a well-formed ledger state and positive quantity, a
successful unit sale of `q` always decreases `totalUnits` by exactly `q`.
A successful carton sale of `q` decreases it by
`q * units_per_carton + min stock_in_unit (q * units_per_carton)`: the
carton counter drops by `q` and, in addition, the loose-unit counter is
reduced by the same `q * units_per_carton` (clamped at zero), so the
claimed decrease of exactly `q * units_per_carton` occurs only when
`stock_in_unit = 0`. -/
theorem adjust_stock_conservation (m : Medicine) (qty : Int)
    (hwf : WfMedicine m) (hq : 0 < qty) :
    (∀ m', adjust_stock m qty "unit" = .ok m' →
      totalUnits m' = totalUnits m - qty) ∧
    (∀ m', adjust_stock m qty "carton" = .ok m' →
      totalUnits m' = totalUnits m - qty * m.units_per_carton -
        min m.stock_in_unit (qty * m.units_per_carton)) := by
  obtain ⟨hc, hupc, hu⟩ := hwf
  constructor
  · intro m' h
    rw [adjust_stock_unit_eq] at h
    by_cases h1 : m.stock_carton * m.units_per_carton + m.stock_in_unit < qty
    · rw [if_pos h1] at h; exact AdjustResult.noConfusion h
    rw [if_neg h1] at h
    by_cases h2 : qty ≤ m.stock_in_unit
    · rw [if_pos h2] at h
      rw [AdjustResult.ok.injEq] at h
      subst h
      simp only [totalUnits]
      ring
    rw [if_neg h2] at h
    by_cases h3 : m.stock_carton <
        (qty - m.stock_in_unit + m.units_per_carton - 1).fdiv m.units_per_carton
    · rw [if_pos h3] at h; exact AdjustResult.noConfusion h
    rw [if_neg h3] at h
    rw [AdjustResult.ok.injEq] at h
    subst h
    simp only [totalUnits]
    ring
  · intro m' h
    rw [adjust_stock_carton_eq] at h
    by_cases h1 : m.stock_carton * m.units_per_carton + m.stock_in_unit <
        qty * m.units_per_carton
    · rw [if_pos h1] at h; exact AdjustResult.noConfusion h
    rw [if_neg h1] at h
    rw [AdjustResult.ok.injEq] at h
    subst h
    simp only [totalUnits]
    by_cases hcl : m.stock_in_unit - qty * m.units_per_carton < 0
    · rw [if_pos hcl, min_eq_left (by omega)]
      ring
    · rw [if_neg hcl, min_eq_right (by omega)]
      ring

/-- Witness for `adjust_stock_conservation` at the spec's first example:
a unit sale of 5 from `(2, 10, 3)` ends at 18 = 23 − 5 total units. -/
theorem adjust_stock_conservation_witness :
    WfMedicine ⟨0, 2, 10, 3, 0⟩ ∧ (0 : Int) < 5 ∧
    totalUnits (Medicine.mk 0 1 10 8 0) = totalUnits ⟨0, 2, 10, 3, 0⟩ - 5 :=
  ⟨by decide, by decide,
    (adjust_stock_conservation ⟨0, 2, 10, 3, 0⟩ 5 (by decide) (by decide)).1
      ⟨0, 1, 10, 8, 0⟩ (by decide)⟩

/-- C3: for a well-formed ledger state with
`totalUnits ≥ quantity * units_per_carton`, a carton sale succeeds and
produces `stock_carton - quantity` cartons and
`max 0 (stock_in_unit - quantity * units_per_carton)` loose units. -/
theorem adjust_stock_carton_spec (m : Medicine) (qty : Int)
    (hwf : WfMedicine m) (hq : 0 < qty)
    (hstock : qty * m.units_per_carton ≤ totalUnits m) :
    adjust_stock m qty "carton" =
      .ok { m with
            stock_carton := m.stock_carton - qty,
            stock_in_unit := max 0 (m.stock_in_unit - qty * m.units_per_carton) } := by
  rw [adjust_stock_carton_eq]
  rw [if_neg (by simp only [totalUnits] at hstock; omega)]
  congr 1
  congr 1
  omega

/-- Witness for `adjust_stock_carton_spec`: the spec's second example
scenario, `(2, 10, 3)` with a carton sale of 1, yields
`stock_carton = 1, stock_in_unit = 0` and 10 total units. -/
theorem adjust_stock_carton_spec_witness :
    WfMedicine ⟨0, 2, 10, 3, 0⟩ ∧ (0 : Int) < 1 ∧
    (1 : Int) * 10 ≤ totalUnits ⟨0, 2, 10, 3, 0⟩ ∧
    adjust_stock ⟨0, 2, 10, 3, 0⟩ 1 "carton" = .ok ⟨0, 1, 10, 0, 0⟩ ∧
    totalUnits ⟨0, 1, 10, 0, 0⟩ = 10 :=
  ⟨by decide, by decide, by decide,
    (adjust_stock_carton_spec ⟨0, 2, 10, 3, 0⟩ 1 (by decide) (by decide)
      (by decide)).trans (by decide),
    by decide⟩

/-- C4: unit-sale behaviour.  For a well-formed ledger state with
`totalUnits ≥ quantity`: if the loose units cover the quantity only they
are reduced; otherwise, with `needed = quantity - stock_in_unit` and
`cartonsToBreak = (needed + upc - 1) // upc` — certified below to be
`ceil(needed / upc)`, i.e. the least `k` with `needed ≤ k * upc` — the
call fails with `InsufficientCartons` exactly when
`stock_carton < cartonsToBreak`, and otherwise yields
`stock_carton - cartonsToBreak` cartons and
`cartonsToBreak * upc - needed` loose units. -/
theorem adjust_stock_unit_spec (m : Medicine) (qty : Int)
    (hwf : WfMedicine m) (hq : 0 < qty) (hstock : qty ≤ totalUnits m) :
    (qty ≤ m.stock_in_unit →
      adjust_stock m qty "unit" = .ok { m with stock_in_unit := m.stock_in_unit - qty }) ∧
    (m.stock_in_unit < qty →
      (qty - m.stock_in_unit ≤
          (qty - m.stock_in_unit + m.units_per_carton - 1).fdiv m.units_per_carton *
            m.units_per_carton ∧
        ((qty - m.stock_in_unit + m.units_per_carton - 1).fdiv m.units_per_carton - 1) *
            m.units_per_carton < qty - m.stock_in_unit) ∧
      (m.stock_carton <
          (qty - m.stock_in_unit + m.units_per_carton - 1).fdiv m.units_per_carton →
        adjust_stock m qty "unit" = .error .insufficientCartons m) ∧
      ((qty - m.stock_in_unit + m.units_per_carton - 1).fdiv m.units_per_carton ≤
          m.stock_carton →
        adjust_stock m qty "unit" =
          .ok { m with
                stock_carton := m.stock_carton -
                  (qty - m.stock_in_unit + m.units_per_carton - 1).fdiv m.units_per_carton,
                stock_in_unit :=
                  (qty - m.stock_in_unit + m.units_per_carton - 1).fdiv m.units_per_carton *
                    m.units_per_carton - (qty - m.stock_in_unit) })) := by
  obtain ⟨hc, hupc, hu⟩ := hwf
  simp only [totalUnits] at hstock
  constructor
  · intro h2
    rw [adjust_stock_unit_eq, if_neg (by omega), if_pos h2]
  · intro h2
    refine ⟨ceil_fdiv_bounds (qty - m.stock_in_unit) m.units_per_carton (by omega),
      ?_, ?_⟩
    · intro h3
      rw [adjust_stock_unit_eq, if_neg (by omega), if_neg (by omega), if_pos h3]
    · intro h3
      rw [adjust_stock_unit_eq, if_neg (by omega), if_neg (by omega),
        if_neg (by omega)]

/-- Witness for `adjust_stock_unit_spec`: the spec's first example, a
unit sale of 5 from `(2, 10, 3)`, breaks 1 carton and ends at
`stock_carton = 1, stock_in_unit = 8`. -/
theorem adjust_stock_unit_spec_witness :
    WfMedicine ⟨0, 2, 10, 3, 0⟩ ∧ (0 : Int) < 5 ∧ (5 : Int) ≤ totalUnits ⟨0, 2, 10, 3, 0⟩ ∧
    (3 : Int) < 5 ∧
    adjust_stock ⟨0, 2, 10, 3, 0⟩ 5 "unit" = .ok ⟨0, 1, 10, 8, 0⟩ :=
  ⟨by decide, by decide, by decide, by decide,
    (((adjust_stock_unit_spec ⟨0, 2, 10, 3, 0⟩ 5 (by decide) (by decide)
      (by decide)).2 (by decide)).2.2 (by decide)).trans (by decide)⟩

/-- C5: requests exceeding the available stock are rejected, and every
rejected call leaves the counters exactly as they were.  For either valid
`sale_type`, if `required` (= `quantity * units_per_carton` for cartons,
`quantity` for units) exceeds `totalUnits`, `adjust_stock` fails with
`InsufficientStock`; and whenever `adjust_stock` fails — on either error
path — the counter state it leaves behind is the input state. -/
theorem adjust_stock_rejection_spec (m : Medicine) (qty : Int) (st : String)
    (hst : st = "unit" ∨ st = "carton") :
    (totalUnits m < (if st = "carton" then qty * m.units_per_carton else qty) →
      adjust_stock m qty st = .error .insufficientStock m) ∧
    (∀ e m'', adjust_stock m qty st = .error e m'' → m'' = m) := by
  rcases hst with hst | hst <;> subst hst
  · constructor
    · intro hreq
      simp only [totalUnits] at hreq
      rw [if_neg (by decide)] at hreq
      rw [adjust_stock_unit_eq, if_pos hreq]
    · intro e m'' h
      rw [adjust_stock_unit_eq] at h
      by_cases h1 : m.stock_carton * m.units_per_carton + m.stock_in_unit < qty
      · rw [if_pos h1] at h
        rw [AdjustResult.error.injEq] at h
        exact h.2.symm
      rw [if_neg h1] at h
      by_cases h2 : qty ≤ m.stock_in_unit
      · rw [if_pos h2] at h; exact AdjustResult.noConfusion h
      rw [if_neg h2] at h
      by_cases h3 : m.stock_carton <
          (qty - m.stock_in_unit + m.units_per_carton - 1).fdiv m.units_per_carton
      · rw [if_pos h3] at h
        rw [AdjustResult.error.injEq] at h
        exact h.2.symm
      · rw [if_neg h3] at h; exact AdjustResult.noConfusion h
  · constructor
    · intro hreq
      simp only [totalUnits] at hreq
      rw [if_pos trivial] at hreq
      rw [adjust_stock_carton_eq, if_pos hreq]
    · intro e m'' h
      rw [adjust_stock_carton_eq] at h
      by_cases h1 : m.stock_carton * m.units_per_carton + m.stock_in_unit <
          qty * m.units_per_carton
      · rw [if_pos h1] at h
        rw [AdjustResult.error.injEq] at h
        exact h.2.symm
      · rw [if_neg h1] at h; exact AdjustResult.noConfusion h

/-- Witness for `adjust_stock_rejection_spec`: a unit sale of 5 from 3
total units fails with `InsufficientStock` and leaves the counters at
their input values. -/
theorem adjust_stock_rejection_spec_witness :
    adjust_stock ⟨0, 0, 10, 3, 0⟩ 5 "unit" = .error .insufficientStock ⟨0, 0, 10, 3, 0⟩ :=
  (adjust_stock_rejection_spec ⟨0, 0, 10, 3, 0⟩ 5 "unit" (Or.inl rfl)).1 (by decide)

/-- C8 counterexample: a request with a single line item of quantity `0`
(< 1) and no discount passes validation, contradicting the claim that
every request containing a line item with quantity < 1 is rejected at
this stage. -/
theorem validateSale_quantity_counterexample :
    (0 : Int) < 1 ∧
    validateSale [⟨1, 0, none, none⟩] none = .ok ([⟨1, 0, none, none⟩], 0) :=
  ⟨by decide, rfl⟩

/-- Unfolding of `validateSale` with no discount supplied. -/
theorem validateSale_none_eq (items : List RawItem) :
    validateSale items none =
      if items = [] then .error .emptyItems else .ok (items, 0) := rfl

/-- Unfolding of `validateSale` with a supplied discount. -/
theorem validateSale_some_eq (items : List RawItem) (x : Rat) :
    validateSale items (some x) =
      if x < 0 ∨ 100 < x then .error .discountOutOfRange
      else if items = [] then .error .emptyItems
      else .ok (items, x) := by
  simp only [validateSale, validate_discount_percentage]
  by_cases hx : x < 0 ∨ 100 < x
  · rw [if_pos hx, if_pos hx]
  · rw [if_neg hx, if_neg hx]

/-- C8 (amended): the validation stage rejects exactly the requests whose
line-item list is empty or whose discount percentage lies outside
`[0, 100]`; accepted requests are passed through unchanged with the
discount defaulted to `0`, which always lies in `[0, 100]`.  Per-item
quantities are never examined at this stage. -/
theorem validateSale_spec (items : List RawItem) (d : Option Rat) :
    ((∃ e, validateSale items d = .error e) ↔
      (items = [] ∨ ∃ x, d = some x ∧ (x < 0 ∨ 100 < x))) ∧
    (∀ its dd, validateSale items d = .ok (its, dd) →
      its = items ∧ dd = d.getD 0 ∧ 0 ≤ dd ∧ dd ≤ 100) := by
  constructor
  · constructor
    · rintro ⟨e, he⟩
      match d with
      | none =>
        rw [validateSale_none_eq] at he
        by_cases hi : items = []
        · exact Or.inl hi
        · rw [if_neg hi] at he; exact Except.noConfusion he
      | some x =>
        rw [validateSale_some_eq] at he
        by_cases hx : x < 0 ∨ 100 < x
        · exact Or.inr ⟨x, rfl, hx⟩
        · rw [if_neg hx] at he
          by_cases hi : items = []
          · exact Or.inl hi
          · rw [if_neg hi] at he; exact Except.noConfusion he
    · rintro (hi | ⟨x, hd, hx⟩)
      · subst hi
        match d with
        | none => exact ⟨.emptyItems, rfl⟩
        | some x =>
          rw [validateSale_some_eq]
          by_cases hx : x < 0 ∨ 100 < x
          · rw [if_pos hx]; exact ⟨.discountOutOfRange, rfl⟩
          · rw [if_neg hx, if_pos rfl]; exact ⟨.emptyItems, rfl⟩
      · subst hd
        rw [validateSale_some_eq, if_pos hx]
        exact ⟨.discountOutOfRange, rfl⟩
  · intro its dd h
    match d with
    | none =>
      rw [validateSale_none_eq] at h
      by_cases hi : items = []
      · rw [if_pos hi] at h; exact Except.noConfusion h
      · rw [if_neg hi] at h
        rw [Except.ok.injEq, Prod.mk.injEq] at h
        refine ⟨h.1.symm, h.2.symm, ?_, ?_⟩ <;> rw [← h.2] <;> norm_num
    | some x =>
      rw [validateSale_some_eq] at h
      by_cases hx : x < 0 ∨ 100 < x
      · rw [if_pos hx] at h; exact Except.noConfusion h
      · rw [if_neg hx] at h
        by_cases hi : items = []
        · rw [if_pos hi] at h; exact Except.noConfusion h
        · rw [if_neg hi] at h
          rw [Except.ok.injEq, Prod.mk.injEq] at h
          push_neg at hx
          refine ⟨h.1.symm, h.2.symm, ?_, ?_⟩ <;> rw [← h.2]
          · exact hx.1
          · exact hx.2

/-- Witness for `validateSale_spec`: a one-item request with a 50%
discount is accepted and passed through. -/
theorem validateSale_spec_witness :
    ([⟨1, 2, none, none⟩] : List RawItem) = [⟨1, 2, none, none⟩] ∧
    (50 : Rat) = (Option.getD (some 50) 0) ∧ (0 : Rat) ≤ 50 ∧ (50 : Rat) ≤ 100 :=
  (validateSale_spec [⟨1, 2, none, none⟩] (some 50)).2 [⟨1, 2, none, none⟩] 50 rfl

/-- `Rat.floor` agrees with the ambient `Int.floor`. -/
theorem ratFloor_eq_intFloor (x : Rat) : x.floor = ⌊x⌋ := by
  rw [Rat.floor_def', Rat.floor_def]

/-- Rounding an integer changes nothing. -/
theorem roundHalfEvenInt_intCast (n : Int) : roundHalfEvenInt (n : Rat) = n := by
  simp only [roundHalfEvenInt, ratFloor_eq_intFloor, Int.floor_intCast, sub_self]
  rw [if_pos (by norm_num)]

/-- `quantizeCents` is the identity on whole-cent values. -/
theorem quantizeCents_of_isCents (x : Rat) (h : IsCents x) : quantizeCents x = x := by
  obtain ⟨n, rfl⟩ := h
  have h100 : (100 : Rat) * (n / 100) = (n : Rat) := by
    field_simp
  rw [quantizeCents, h100, roundHalfEvenInt_intCast]

/-- Whole-cent values are closed under addition. -/
theorem IsCents.add {x y : Rat} (hx : IsCents x) (hy : IsCents y) : IsCents (x + y) := by
  obtain ⟨a, rfl⟩ := hx
  obtain ⟨b, rfl⟩ := hy
  exact ⟨a + b, by push_cast; ring⟩

/-- Whole-cent values are closed under subtraction. -/
theorem IsCents.sub {x y : Rat} (hx : IsCents x) (hy : IsCents y) : IsCents (x - y) := by
  obtain ⟨a, rfl⟩ := hx
  obtain ⟨b, rfl⟩ := hy
  exact ⟨a - b, by push_cast; ring⟩

/-- Scaling a whole-cent value by an integer keeps it a whole-cent value. -/
theorem IsCents.intMul {x : Rat} (q : Int) (hx : IsCents x) : IsCents ((q : Rat) * x) := by
  obtain ⟨a, rfl⟩ := hx
  exact ⟨q * a, by push_cast; ring⟩

/-- Zero is a whole number of cents. -/
theorem IsCents.zero : IsCents 0 := ⟨0, by norm_num⟩

/-- The result of `quantizeCents` is always a whole number of cents. -/
theorem IsCents.quantizeCents (x : Rat) : IsCents (quantizeCents x) :=
  ⟨roundHalfEvenInt (100 * x), rfl⟩

/-- C6: `createSale` is atomic.  Whenever sale creation fails — a missing
medicine, `InsufficientStock` or `InsufficientCartons` at any line item —
the post-call database is exactly the pre-call database: no `Sale` row,
no `SaleItem` rows, and every medicine's counters as they were, the stock
mutations already applied for earlier line items of the same call
included. -/
theorem createSale_atomic (today : String) (db : DB) (items : List RawItem)
    (d : Rat) (db' : DB) (e : SaleError)
    (h : createSale today db items d = (db', .error e)) :
    db' = db ∧ db'.medicines = db.medicines ∧ db'.sales = db.sales ∧
      db'.sale_items = db.sale_items := by
  simp only [createSale] at h
  split at h
  · rw [Prod.mk.injEq] at h
    obtain ⟨h1, -⟩ := h
    subst h1
    exact ⟨rfl, rfl, rfl, rfl⟩
  · rw [Prod.mk.injEq] at h
    exact absurd h.2 (by simp)

/-- Witness for `createSale_atomic`: a two-item sale whose second line
item has insufficient stock (3 available, 5 requested) leaves the
database — including the first item's already-adjusted medicine —
exactly as it was. -/
theorem createSale_atomic_witness :
    (⟨[⟨1, 5, 10, 5, 2⟩, ⟨2, 0, 10, 3, 1⟩], [], []⟩ : DB) =
      ⟨[⟨1, 5, 10, 5, 2⟩, ⟨2, 0, 10, 3, 1⟩], [], []⟩ ∧
    (⟨[⟨1, 5, 10, 5, 2⟩, ⟨2, 0, 10, 3, 1⟩], [], []⟩ : DB).medicines =
      (⟨[⟨1, 5, 10, 5, 2⟩, ⟨2, 0, 10, 3, 1⟩], [], []⟩ : DB).medicines ∧
    (⟨[⟨1, 5, 10, 5, 2⟩, ⟨2, 0, 10, 3, 1⟩], [], []⟩ : DB).sales =
      (⟨[⟨1, 5, 10, 5, 2⟩, ⟨2, 0, 10, 3, 1⟩], [], []⟩ : DB).sales ∧
    (⟨[⟨1, 5, 10, 5, 2⟩, ⟨2, 0, 10, 3, 1⟩], [], []⟩ : DB).sale_items =
      (⟨[⟨1, 5, 10, 5, 2⟩, ⟨2, 0, 10, 3, 1⟩], [], []⟩ : DB).sale_items :=
  createSale_atomic "20250101" ⟨[⟨1, 5, 10, 5, 2⟩, ⟨2, 0, 10, 3, 1⟩], [], []⟩
    [⟨1, 2, some "unit", none⟩, ⟨2, 5, some "unit", none⟩] 0
    ⟨[⟨1, 5, 10, 5, 2⟩, ⟨2, 0, 10, 3, 1⟩], [], []⟩
    (.stock .insufficientStock) rfl

/-- `adjust_stock` never changes the `price` field. -/
theorem adjust_stock_price_eq (m : Medicine) (qty : Int) (st : String)
    (m' : Medicine) (h : adjust_stock m qty st = .ok m') : m'.price = m.price := by
  simp only [adjust_stock] at h
  repeat' split at h
  all_goals first
    | exact AdjustResult.noConfusion h
    | (rw [AdjustResult.ok.injEq] at h; subst h; rfl)

/-- Every `SaleItem` created by the line-item loop carries a whole-cent
price whenever the ledger prices and the caller-supplied override prices
are whole-cent values. -/
theorem create_items_prices_cents (items : List RawItem) :
    ∀ (db : DB) (sid : Nat) (db' : DB) (created : List SaleItemRec),
    (∀ m ∈ db.medicines, IsCents m.price) →
    (∀ i ∈ items, ∀ p, i.price = some p → IsCents p) →
    create_sale_items_and_adjust_stock db sid items = .ok (db', created) →
    ∀ si ∈ created, IsCents si.price := by
  induction items with
  | nil =>
    intro db sid db' created _ _ h si hsi
    simp only [create_sale_items_and_adjust_stock] at h
    rw [Except.ok.injEq, Prod.mk.injEq] at h
    rw [← h.2] at hsi
    exact absurd hsi (List.not_mem_nil si)
  | cons item rest ih =>
    intro db sid db' created hdb hitems h si hsi
    simp only [create_sale_items_and_adjust_stock] at h
    split at h
    · exact Except.noConfusion h
    rename_i medicine hfind
    split at h
    · exact Except.noConfusion h
    rename_i medicine' hadj
    split at h
    · exact Except.noConfusion h
    rename_i dbf created' hrec
    rw [Except.ok.injEq, Prod.mk.injEq] at h
    have hmed : medicine ∈ db.medicines := List.mem_of_find?_eq_some hfind
    have hmedc : IsCents medicine.price := hdb medicine hmed
    rw [← h.2] at hsi
    rcases List.mem_cons.mp hsi with hhd | htl
    · subst hhd
      cases hp : item.price with
      | none => simpa [hp] using hmedc
      | some p =>
        have := hitems item (List.mem_cons_self item rest) p hp
        simpa [hp] using this
    · refine ih _ sid dbf created' ?_ ?_ hrec si htl
      · intro x hx
        rcases List.mem_map.mp hx with ⟨y, hy, hxy⟩
        by_cases hym : y.mid == item.medicine
        · rw [if_pos hym] at hxy
          rw [← hxy]
          rw [adjust_stock_price_eq medicine item.quantity
            (item.sale_type.getD "unit") medicine' hadj]
          exact hmedc
        · rw [if_neg hym] at hxy
          rw [← hxy]
          exact hdb y hy
      · intro i hi p hp
        exact hitems i (List.mem_cons_of_mem item hi) p hp

/-- The pre-discount total `sum(Decimal(i.quantity) * i.price)` is a
whole-cent value when every line price is. -/
theorem lineTotal_sum_cents (l : List SaleItemRec)
    (h : ∀ si ∈ l, IsCents si.price) :
    IsCents ((l.map (fun i => (i.quantity : Rat) * i.price)).sum) := by
  induction l with
  | nil => simpa using IsCents.zero
  | cons a l ih =>
    rw [List.map_cons, List.sum_cons]
    exact IsCents.add
      (IsCents.intMul a.quantity (h a (List.mem_cons_self a l)))
      (ih (fun si hsi => h si (List.mem_cons_of_mem a hsi)))

/-- C7 counterexample: one line item of quantity 1 at price 0.25 with a
10% discount.  `base_price * 10% = 0.025`, a tie at the cent; the code's
`quantize` (default `ROUND_HALF_EVEN`) stores `discounted_amount = 0.02`,
while the claimed round-half-up yields `0.03`. -/
theorem createSale_halfup_counterexample :
    (createSale "20250101" ⟨[⟨1, 10, 10, 5, 1 / 4⟩], [], []⟩
        [⟨1, 1, some "unit", none⟩] 10).2 =
      .ok (⟨0, "SLS-20250101-0001", 10, 1 / 4, 1 / 50, 23 / 100⟩,
        [⟨0, 1, 1, 1 / 4, "unit"⟩]) ∧
    specRoundHalfUpCents ((1 / 4 : Rat) * (10 / 100)) = 3 / 100 ∧
    (1 / 50 : Rat) ≠ 3 / 100 := by
  refine ⟨by decide, by decide, by decide⟩

/-- C7 (amended): for every successful sale over whole-cent ledger and
override prices and discount `d ∈ [0, 100]`, the persisted totals are
`base_price = Σ quantity_i * price_i` exactly,
`discounted_amount = base_price * d / 100` rounded to the cent with
`ROUND_HALF_EVEN` (banker's rounding, Python's default `Decimal` context
— not round-half-up), and `total_amount = base_price -
discounted_amount` exactly (the final `quantize` is the identity on the
already whole-cent difference). -/
theorem createSale_totals_spec (today : String) (db : DB) (items : List RawItem)
    (d : Rat) (db' : DB) (s : SaleRec) (created : List SaleItemRec)
    (hdb : ∀ m ∈ db.medicines, IsCents m.price)
    (hitems : ∀ i ∈ items, ∀ p, i.price = some p → IsCents p)
    (h : createSale today db items d = (db', .ok (s, created))) :
    s.base_price = (created.map (fun i => (i.quantity : Rat) * i.price)).sum ∧
    s.discounted_amount = quantizeCents (s.base_price * (d / 100)) ∧
    s.total_amount = s.base_price - s.discounted_amount := by
  simp only [createSale] at h
  split at h
  · rw [Prod.mk.injEq] at h
    exact absurd h.2 (by simp)
  · rename_i db2 created2 hrec
    rw [Prod.mk.injEq, Except.ok.injEq, Prod.mk.injEq] at h
    obtain ⟨-, hs, rfl⟩ := h
    have hcents : ∀ si ∈ created2, IsCents si.price :=
      create_items_prices_cents items
        { db with sales := db.sales ++
            [⟨db.sales.length,
              generate_voucher_number today (db.sales.map (fun s => s.voucher_number)),
              d, 0, 0, 0⟩] }
        db.sales.length db2 created2 hdb hitems hrec
    have hbase : IsCents ((created2.map (fun i => (i.quantity : Rat) * i.price)).sum) :=
      lineTotal_sum_cents created2 hcents
    have hbq : quantizeCents ((created2.map (fun i => (i.quantity : Rat) * i.price)).sum)
        = (created2.map (fun i => (i.quantity : Rat) * i.price)).sum :=
      quantizeCents_of_isCents _ hbase
    rw [← hs]
    refine ⟨by simpa using hbq, ?_, ?_⟩
    · simp only []
      rw [hbq]
    · simp only []
      rw [hbq]
      exact quantizeCents_of_isCents _
        (IsCents.sub hbase (IsCents.quantizeCents _))

/-- Witness for `createSale_totals_spec`: the counterexample scenario,
where the stored totals are `base = 0.25`, `discounted = 0.02`,
`total = 0.23`. -/
theorem createSale_totals_spec_witness :
    (⟨0, "SLS-20250101-0001", 10, 1 / 4, 1 / 50, 23 / 100⟩ : SaleRec).base_price =
      (([⟨0, 1, 1, 1 / 4, "unit"⟩] : List SaleItemRec).map
        (fun i => (i.quantity : Rat) * i.price)).sum ∧
    (⟨0, "SLS-20250101-0001", 10, 1 / 4, 1 / 50, 23 / 100⟩ : SaleRec).discounted_amount =
      quantizeCents ((⟨0, "SLS-20250101-0001", 10, 1 / 4, 1 / 50, 23 / 100⟩ : SaleRec).base_price * (10 / 100)) ∧
    (⟨0, "SLS-20250101-0001", 10, 1 / 4, 1 / 50, 23 / 100⟩ : SaleRec).total_amount =
      (⟨0, "SLS-20250101-0001", 10, 1 / 4, 1 / 50, 23 / 100⟩ : SaleRec).base_price -
        (⟨0, "SLS-20250101-0001", 10, 1 / 4, 1 / 50, 23 / 100⟩ : SaleRec).discounted_amount :=
  createSale_totals_spec "20250101" ⟨[⟨1, 10, 10, 5, 1 / 4⟩], [], []⟩
    [⟨1, 1, some "unit", none⟩] 10
    ⟨[⟨1, 10, 10, 4, 1 / 4⟩],
      [⟨0, "SLS-20250101-0001", 10, 1 / 4, 1 / 50, 23 / 100⟩],
      [⟨0, 1, 1, 1 / 4, "unit"⟩]⟩
    ⟨0, "SLS-20250101-0001", 10, 1 / 4, 1 / 50, 23 / 100⟩
    [⟨0, 1, 1, 1 / 4, "unit"⟩]
    (by
      intro m hm
      simp only [List.mem_singleton] at hm
      subst hm
      exact ⟨25, by norm_num⟩)
    (by
      intro i hi p hp
      simp only [List.mem_singleton] at hi
      subst hi
      exact Option.noConfusion hp)
    (by decide)

/-- Replacing the medicine `find?` located with itself is a no-op when
primary keys are unique (saving an unchanged row changes nothing). -/
theorem map_replace_self (l : List Medicine) (mid : Nat) (m : Medicine)
    (hids : (l.map Medicine.mid).Nodup)
    (hfind : l.find? (fun x => x.mid == mid) = some m) :
    l.map (fun x : Medicine => if x.mid == mid then m else x) = l := by
  induction l with
  | nil => exact absurd hfind (by simp)
  | cons a l ih =>
    rw [List.find?_cons] at hfind
    rw [List.map_cons, List.nodup_cons] at hids
    by_cases ha : (a.mid == mid) = true
    · simp only [ha] at hfind
      rw [Option.some.injEq] at hfind
      subst hfind
      have hmid : a.mid = mid := by simpa using ha
      have hno : ∀ x ∈ l, ¬ ((x.mid == mid) = true) := by
        intro x hx hxm
        have hxmid : x.mid = mid := by simpa using hxm
        have hmem : x.mid ∈ List.map Medicine.mid l :=
          List.mem_map_of_mem Medicine.mid hx
        rw [hxmid, ← hmid] at hmem
        exact hids.1 hmem
      rw [List.map_cons]
      congr 1
      · exact ite_self a
      · exact (List.map_congr_left
          (fun x hx => if_neg (hno x hx))).trans (List.map_id' l)
    · rw [Bool.not_eq_true] at ha
      simp only [ha] at hfind
      rw [List.map_cons, if_neg (by simp [ha])]
      congr 1
      exact ih hids.2 hfind

/-- C10: a `sale_type` that is neither `"unit"` nor `"carton"` (e.g. a
misspelling) falls through both branches of `adjust_stock`: with
`totalUnits ≥ quantity` the call raises no error and returns the counters
unchanged.  `createSale` still persists the `SaleItem` carrying that
`sale_type` verbatim and bills `quantity * price` into the sale totals,
while the medicine rows are left exactly as they were: the line is sold
and billed without any stock decrement. -/
theorem createSale_unknown_saleType_spec (today : String) (db : DB)
    (mid : Nat) (qty : Int) (st : String) (pr : Option Rat) (d : Rat)
    (m : Medicine)
    (hids : (db.medicines.map Medicine.mid).Nodup)
    (hfind : db.medicines.find? (fun x => x.mid == mid) = some m)
    (h1 : st ≠ "unit") (h2 : st ≠ "carton")
    (htot : qty ≤ totalUnits m) :
    adjust_stock m qty st = .ok m ∧
    (createSale today db [⟨mid, qty, some st, pr⟩] d).1.medicines = db.medicines ∧
    (createSale today db [⟨mid, qty, some st, pr⟩] d).1.sale_items =
      db.sale_items ++ [⟨db.sales.length, mid, qty, pr.getD m.price, st⟩] ∧
    ∃ s, (createSale today db [⟨mid, qty, some st, pr⟩] d).2 =
      .ok (s, [⟨db.sales.length, mid, qty, pr.getD m.price, st⟩]) ∧
      s.base_price = quantizeCents ((qty : Rat) * pr.getD m.price) := by
  have hadj : adjust_stock m qty st = .ok m := by
    rw [adjust_stock_other_eq m qty st h2 h1]
    rw [if_neg (by simp only [totalUnits] at htot; omega)]
  have hmap : db.medicines.map
      (fun x : Medicine => if x.mid == mid then m else x) = db.medicines :=
    map_replace_self db.medicines mid m hids hfind
  have hstep : ∀ (db1 : DB) (sid : Nat), db1.medicines = db.medicines →
      create_sale_items_and_adjust_stock db1 sid [⟨mid, qty, some st, pr⟩] =
        .ok (⟨db.medicines, db1.sales,
            db1.sale_items ++ [⟨sid, mid, qty, pr.getD m.price, st⟩]⟩,
          [⟨sid, mid, qty, pr.getD m.price, st⟩]) := by
    intro db1 sid hmeds
    simp only [create_sale_items_and_adjust_stock]
    rw [hmeds, hfind]
    simp only [Option.getD_some]
    rw [hadj]
    simp only [hmeds, hmap]
  have hsimp := hstep { db with sales := db.sales ++
      [⟨db.sales.length,
        generate_voucher_number today (db.sales.map (fun s => s.voucher_number)),
        d, 0, 0, 0⟩] } db.sales.length rfl
  refine ⟨hadj, ?_, ?_, ?_⟩
  · simp only [createSale, hsimp]
  · simp only [createSale, hsimp]
  · simp only [createSale, hsimp]
    exact ⟨_, rfl, by
      simp only [List.map_cons, List.map_nil, List.sum_cons, List.sum_nil, add_zero]⟩

/-- Witness for `createSale_unknown_saleType_spec`: a line item with the
misspelled `sale_type = "cartons"` is billed while the stock stays
untouched. -/
theorem createSale_unknown_saleType_spec_witness :
    adjust_stock ⟨1, 5, 10, 5, 2⟩ 2 "cartons" = .ok ⟨1, 5, 10, 5, 2⟩ ∧
    (createSale "20250101" ⟨[⟨1, 5, 10, 5, 2⟩], [], []⟩
      [⟨1, 2, some "cartons", none⟩] 0).1.medicines =
      (⟨[⟨1, 5, 10, 5, 2⟩], [], []⟩ : DB).medicines ∧
    (createSale "20250101" ⟨[⟨1, 5, 10, 5, 2⟩], [], []⟩
      [⟨1, 2, some "cartons", none⟩] 0).1.sale_items =
      (⟨[⟨1, 5, 10, 5, 2⟩], [], []⟩ : DB).sale_items ++
        [⟨(⟨[⟨1, 5, 10, 5, 2⟩], [], []⟩ : DB).sales.length, 1, 2,
          (none : Option Rat).getD (Medicine.mk 1 5 10 5 2).price, "cartons"⟩] ∧
    ∃ s, (createSale "20250101" ⟨[⟨1, 5, 10, 5, 2⟩], [], []⟩
        [⟨1, 2, some "cartons", none⟩] 0).2 =
      .ok (s, [⟨(⟨[⟨1, 5, 10, 5, 2⟩], [], []⟩ : DB).sales.length, 1, 2,
        (none : Option Rat).getD (Medicine.mk 1 5 10 5 2).price, "cartons"⟩]) ∧
      s.base_price = quantizeCents
        ((2 : Int) * (none : Option Rat).getD (Medicine.mk 1 5 10 5 2).price) :=
  createSale_unknown_saleType_spec "20250101" ⟨[⟨1, 5, 10, 5, 2⟩], [], []⟩
    1 2 "cartons" none 0 ⟨1, 5, 10, 5, 2⟩
    (by decide) (by decide) (by decide) (by decide) (by decide)

/-- Digit characters compare like their digits. -/
theorem digitChar_lt_iff : ∀ j < 10, ∀ k < 10,
    (digitChar j < digitChar k ↔ j < k) := by decide

/-- Digit characters are digits for `str.isdigit`. -/
theorem isDigitChar_digitChar : ∀ k < 10, isDigitChar (digitChar k) = true := by decide

/-- Digit characters are not the separator. -/
theorem digitChar_ne_dash : ∀ k < 10, digitChar k ≠ '-' := by decide

/-- `int` undoes a digit character. -/
theorem digitChar_toNat : ∀ k < 10, (digitChar k).toNat - 48 = k := by decide

/-- A number below 10 is its own digit list, whatever the fuel. -/
theorem decimalDigitsFuel_small (fuel n : Nat) (h : n < 10) :
    decimalDigitsFuel fuel n = [n] := by
  cases fuel with
  | zero => rfl
  | succ f => simp [decimalDigitsFuel, h]

/-- Two-digit numbers split into their two digits when the fuel is
positive. -/
theorem decimalDigitsFuel_two (fuel n : Nat) (hf : 1 ≤ fuel)
    (h10 : 10 ≤ n) (h100 : n < 100) :
    decimalDigitsFuel fuel n = [n / 10, n % 10] := by
  obtain ⟨f, rfl⟩ : ∃ f, fuel = f + 1 := ⟨fuel - 1, by omega⟩
  rw [decimalDigitsFuel, if_neg (by omega),
    decimalDigitsFuel_small f (n / 10) (by omega)]
  rfl

/-- Three-digit numbers split into their three digits when the fuel is at
least 2. -/
theorem decimalDigitsFuel_three (fuel n : Nat) (hf : 2 ≤ fuel)
    (hlo : 100 ≤ n) (hhi : n < 1000) :
    decimalDigitsFuel fuel n = [n / 100, n / 10 % 10, n % 10] := by
  obtain ⟨f, rfl⟩ : ∃ f, fuel = f + 1 := ⟨fuel - 1, by omega⟩
  rw [decimalDigitsFuel, if_neg (by omega),
    decimalDigitsFuel_two f (n / 10) (by omega) (by omega) (by omega)]
  have h1 : n / 10 / 10 = n / 100 := by omega
  have h2 : n / 10 % 10 = n / 10 % 10 := rfl
  rw [h1]
  rfl

/-- Four-digit numbers split into their four digits when the fuel is at
least 3. -/
theorem decimalDigitsFuel_four (fuel n : Nat) (hf : 3 ≤ fuel)
    (hlo : 1000 ≤ n) (hhi : n < 10000) :
    decimalDigitsFuel fuel n = [n / 1000, n / 100 % 10, n / 10 % 10, n % 10] := by
  obtain ⟨f, rfl⟩ : ∃ f, fuel = f + 1 := ⟨fuel - 1, by omega⟩
  rw [decimalDigitsFuel, if_neg (by omega),
    decimalDigitsFuel_three f (n / 10) (by omega) (by omega) (by omega)]
  have h1 : n / 10 / 100 = n / 1000 := by omega
  have h2 : n / 10 / 10 % 10 = n / 100 % 10 := by omega
  rw [h1, h2]
  rfl

/-- For `n ≤ 9999`, `f"{n:04d}"` is exactly the four decimal digits of
`n`, leading zeros included. -/
theorem pad4Chars_eq (n : Nat) (h : n ≤ 9999) :
    pad4Chars n = [digitChar (n / 1000), digitChar (n / 100 % 10),
      digitChar (n / 10 % 10), digitChar (n % 10)] := by
  rcases Nat.lt_or_ge n 10 with h1 | h1
  · have hd : decimalDigits n = [n] := decimalDigitsFuel_small n n h1
    rw [pad4Chars, hd]
    have e0 : n / 1000 = 0 := by omega
    have e1 : n / 100 % 10 = 0 := by omega
    have e2 : n / 10 % 10 = 0 := by omega
    have e3 : n % 10 = n := by omega
    rw [e0, e1, e2, e3]
    rfl
  rcases Nat.lt_or_ge n 100 with h2 | h2
  · have hd : decimalDigits n = [n / 10, n % 10] :=
      decimalDigitsFuel_two n n (by omega) h1 h2
    rw [pad4Chars, hd]
    have e0 : n / 1000 = 0 := by omega
    have e1 : n / 100 % 10 = 0 := by omega
    have e2 : n / 10 % 10 = n / 10 := by omega
    rw [e0, e1, e2]
    rfl
  rcases Nat.lt_or_ge n 1000 with h3 | h3
  · have hd : decimalDigits n = [n / 100, n / 10 % 10, n % 10] :=
      decimalDigitsFuel_three n n (by omega) h2 h3
    rw [pad4Chars, hd]
    have e0 : n / 1000 = 0 := by omega
    have e1 : n / 100 % 10 = n / 100 := by omega
    rw [e0, e1]
    rfl
  · have hd : decimalDigits n = [n / 1000, n / 100 % 10, n / 10 % 10, n % 10] :=
      decimalDigitsFuel_four n n (by omega) h3 (by omega)
    rw [pad4Chars, hd]
    rfl

/-- `int(f"{n:04d}") = n` for `n ≤ 9999`. -/
theorem parseNatChars_pad4 (n : Nat) (h : n ≤ 9999) :
    parseNatChars (pad4Chars n) = n := by
  rw [pad4Chars_eq n h, parseNatChars]
  simp only [List.foldl_cons, List.foldl_nil]
  rw [digitChar_toNat (n / 1000) (by omega),
    digitChar_toNat (n / 100 % 10) (by omega),
    digitChar_toNat (n / 10 % 10) (by omega),
    digitChar_toNat (n % 10) (by omega)]
  omega

/-- `f"{n:04d}".isdigit()` holds for `n ≤ 9999`. -/
theorem pad4Chars_all_digits (n : Nat) (h : n ≤ 9999) :
    (pad4Chars n).all isDigitChar = true := by
  rw [pad4Chars_eq n h]
  simp only [List.all_cons, List.all_nil, Bool.and_eq_true, Bool.and_true]
  exact ⟨isDigitChar_digitChar _ (by omega), isDigitChar_digitChar _ (by omega),
    isDigitChar_digitChar _ (by omega), isDigitChar_digitChar _ (by omega)⟩

/-- `f"{n:04d}"` is never empty. -/
theorem pad4Chars_ne_nil (n : Nat) (h : n ≤ 9999) : pad4Chars n ≠ [] := by
  rw [pad4Chars_eq n h]
  exact List.cons_ne_nil _ _

/-- `f"{n:04d}"` contains no separator. -/
theorem pad4Chars_no_dash (n : Nat) (h : n ≤ 9999) :
    ∀ c ∈ pad4Chars n, c ≠ '-' := by
  rw [pad4Chars_eq n h]
  intro c hc
  simp only [List.mem_cons, List.not_mem_nil, or_false] at hc
  rcases hc with rfl | rfl | rfl | rfl
  · exact digitChar_ne_dash _ (by omega)
  · exact digitChar_ne_dash _ (by omega)
  · exact digitChar_ne_dash _ (by omega)
  · exact digitChar_ne_dash _ (by omega)

/-- `takeWhile` swallows a whole block the predicate accepts and stops at
the first rejected element. -/
theorem takeWhile_append_block (p : Char → Bool) (l : List Char) (x : Char)
    (r : List Char) (hl : ∀ c ∈ l, p c = true) (hx : p x = false) :
    (l ++ x :: r).takeWhile p = l := by
  induction l with
  | nil => simp [List.takeWhile_cons, hx]
  | cons a l ih =>
    rw [List.cons_append, List.takeWhile_cons,
      hl a (List.mem_cons_self a l)]
    rw [ih (fun c hc => hl c (List.mem_cons_of_mem a hc))]
    simp

/-- `split('-')[-1]` of `prefix ++ "-" ++ block` is the block when the
block holds no `'-'`. -/
theorem afterLastDash_append (A B : List Char) (hB : ∀ c ∈ B, c ≠ '-') :
    afterLastDash (A ++ '-' :: B) = B := by
  rw [afterLastDash, List.reverse_append, List.reverse_cons, List.append_assoc,
    List.singleton_append]
  rw [takeWhile_append_block _ B.reverse '-' _
    (fun c hc => by
      rw [decide_eq_true_eq]
      exact hB c (List.mem_reverse.mp hc))
    (by simp)]
  exact List.reverse_reverse B

/-- A shared prefix does not affect lexicographic comparison. -/
theorem lexLt_append_same (p x y : List Char) :
    lexLt (p ++ x) (p ++ y) = lexLt x y := by
  induction p with
  | nil => rfl
  | cons c p ih =>
    rw [List.cons_append, List.cons_append, lexLt,
      if_neg (lt_irrefl c), if_neg (lt_irrefl c)]
    exact ih

/-- One comparison level of two digit characters. -/
theorem lexLt_digit_cons (j k : Nat) (hj : j < 10) (hk : k < 10)
    (xs ys : List Char) :
    lexLt (digitChar j :: xs) (digitChar k :: ys) =
      (if j < k then true else if k < j then false else lexLt xs ys) := by
  rcases Nat.lt_trichotomy j k with h | h | h
  · rw [lexLt, if_pos ((digitChar_lt_iff j hj k hk).mpr h), if_pos h]
  · subst h
    rw [lexLt, if_neg (lt_irrefl _), if_neg (lt_irrefl _),
      if_neg (lt_irrefl _), if_neg (lt_irrefl _)]
  · rw [lexLt, if_neg (by
        intro hc
        exact absurd ((digitChar_lt_iff j hj k hk).mp hc) (by omega)),
      if_pos ((digitChar_lt_iff k hk j hj).mpr h),
      if_neg (by omega), if_pos h]

/-- Lexicographic order on four-digit zero-padded numerals is numeric
order. -/
theorem lexLt_pad4_iff (a b : Nat) (ha : a ≤ 9999) (hb : b ≤ 9999) :
    (lexLt (pad4Chars a) (pad4Chars b) = true ↔ a < b) := by
  rw [pad4Chars_eq a ha, pad4Chars_eq b hb]
  rw [lexLt_digit_cons _ _ (by omega) (by omega),
    lexLt_digit_cons _ _ (by omega) (by omega),
    lexLt_digit_cons _ _ (by omega) (by omega),
    lexLt_digit_cons _ _ (by omega) (by omega)]
  have hnil : lexLt [] [] = false := rfl
  rw [hnil]
  split_ifs <;> simp_all <;> omega

/-- The characters of a voucher string: the day prefix, the separator,
the padded sequence numeral. -/
theorem voucherFor_data (d : String) (n : Nat) :
    (voucherFor d n).data = ("SLS-" ++ d).data ++ ('-' :: pad4Chars n) := by
  simp [voucherFor]

/-- Same-day voucher strings compare like their sequence numbers. -/
theorem strLt_voucherFor (d : String) (a b : Nat) (ha : a ≤ 9999) (hb : b ≤ 9999) :
    strLt (voucherFor d a) (voucherFor d b) = decide (a < b) := by
  rw [strLt, voucherFor_data, voucherFor_data, lexLt_append_same, lexLt,
    if_neg (lt_irrefl _), if_neg (lt_irrefl _)]
  rw [Bool.eq_iff_iff]
  simp only [decide_eq_true_eq]
  exact lexLt_pad4_iff a b ha hb

/-- Every same-day voucher string starts with the day's prefix. -/
theorem startsWithStr_voucherFor (d : String) (n : Nat) :
    startsWithStr (voucherFor d n) ("SLS-" ++ d) = true := by
  rw [startsWithStr, voucherFor_data, decide_eq_true_eq]
  exact List.take_left _ _

/-- The day filter keeps every same-day voucher. -/
theorem filter_vouchers (d : String) (seqs : List Nat) :
    (seqs.map (voucherFor d)).filter (fun s => startsWithStr s ("SLS-" ++ d)) =
      seqs.map (voucherFor d) :=
  List.filter_eq_self.mpr (fun s hs => by
    obtain ⟨n, -, rfl⟩ := List.mem_map.mp hs
    exact startsWithStr_voucherFor d n)

/-- A left fold of `max` stays below any common bound. -/
theorem foldl_max_le (seqs : List Nat) :
    ∀ a k, a ≤ k → (∀ n ∈ seqs, n ≤ k) → seqs.foldl max a ≤ k := by
  induction seqs with
  | nil => intro a k ha _; exact ha
  | cons n rest ih =>
    intro a k ha hs
    rw [List.foldl_cons]
    exact ih (max a n) k
      (by
        have := hs n (List.mem_cons_self n rest)
        omega)
      (fun x hx => hs x (List.mem_cons_of_mem n hx))

/-- `order_by('-voucher_number').first()` over same-day vouchers is the
voucher of the numerically greatest sequence number. -/
theorem foldl_voucher_max (d : String) (seqs : List Nat) :
    ∀ a, a ≤ 9999 → (∀ n ∈ seqs, n ≤ 9999) →
    List.foldl
      (fun acc s =>
        match acc with
        | none => some s
        | some t => if strLt t s then some s else some t)
      (some (voucherFor d a)) (seqs.map (voucherFor d)) =
      some (voucherFor d (seqs.foldl max a)) := by
  induction seqs with
  | nil => intro a _ _; rfl
  | cons n rest ih =>
    intro a ha hs
    have hn : n ≤ 9999 := hs n (List.mem_cons_self n rest)
    rw [List.map_cons, List.foldl_cons, List.foldl_cons]
    simp only []
    rw [strLt_voucherFor d a n ha hn]
    rcases lt_or_le a n with h | h
    · rw [if_pos (by simpa using h), max_eq_right (le_of_lt h)]
      exact ih n hn (fun x hx => hs x (List.mem_cons_of_mem n hx))
    · rw [if_neg (by simp only [decide_eq_true_eq]; omega), max_eq_left h]
      exact ih a ha (fun x hx => hs x (List.mem_cons_of_mem n hx))

/-- `split('-')[-1]` of a voucher string is its sequence numeral. -/
theorem afterLastDash_voucherFor (d : String) (n : Nat) (h : n ≤ 9999) :
    afterLastDash (voucherFor d n).data = pad4Chars n := by
  rw [voucherFor_data]
  exact afterLastDash_append _ _ (pad4Chars_no_dash n h)

/-- C9 (amended): over any set of persisted same-day vouchers whose
sequence numbers are 4-digit zero-padded values at most 9998,
`generate_voucher_number` returns `SLS-<date>-<NNNN>` where `NNNN` is the
4-digit zero-padded successor of the highest existing sequence number,
and `0001` when no voucher with the day's prefix exists (the fold over an
empty day starts from 0).  Beyond 9999 the claim fails: the query orders
vouchers lexicographically, and a 5-digit `10000` sorts below `9999`, so
the code would regenerate `10000` — see the counterexample. -/
theorem generate_voucher_spec (dateStr : String) (seqs : List Nat)
    (hb : ∀ n ∈ seqs, n ≤ 9998) :
    generate_voucher_number dateStr (seqs.map (voucherFor dateStr)) =
      voucherFor dateStr (seqs.foldl max 0 + 1) := by
  cases seqs with
  | nil => rfl
  | cons n rest =>
    have hn : n ≤ 9998 := hb n (List.mem_cons_self n rest)
    have hrest : ∀ x ∈ rest, x ≤ 9998 := fun x hx =>
      hb x (List.mem_cons_of_mem n hx)
    have hM : rest.foldl max n ≤ 9998 := foldl_max_le rest n 9998 hn hrest
    simp only [generate_voucher_number]
    rw [filter_vouchers]
    rw [List.map_cons, List.foldl_cons]
    simp only []
    rw [foldl_voucher_max dateStr rest n (by omega)
      (fun x hx => by have := hrest x hx; omega)]
    simp only []
    rw [afterLastDash_voucherFor dateStr _ (by omega)]
    rw [if_pos ⟨pad4Chars_ne_nil _ (by omega), pad4Chars_all_digits _ (by omega)⟩]
    rw [parseNatChars_pad4 _ (by omega)]
    rw [List.foldl_cons, Nat.zero_max]
    rfl

/-- C9 counterexample: with same-day vouchers `9999` and `10000` already
persisted (the state the code itself reaches at the 10000th sale of a
day), the highest existing sequence number is `10000`, but the
lexicographically greatest voucher is `...-9999`, so the code returns
`SLS-20250101-10000` — a duplicate of an existing voucher — instead of
the claimed highest-plus-one `SLS-20250101-10001`. -/
theorem generate_voucher_counterexample :
    generate_voucher_number "20250101"
      ["SLS-20250101-9999", "SLS-20250101-10000"] = "SLS-20250101-10000" ∧
    ("SLS-20250101-10000" : String) ∈
      ["SLS-20250101-9999", "SLS-20250101-10000"] ∧
    ("SLS-20250101-10000" : String) ≠ "SLS-20250101-10001" := by
  refine ⟨by decide, by decide, by decide⟩

/-- Witness for `generate_voucher_spec`: from persisted sequence numbers
1 and 7, the next voucher is `SLS-20250101-0008`. -/
theorem generate_voucher_spec_witness :
    generate_voucher_number "20250101"
      ["SLS-20250101-0001", "SLS-20250101-0007"] = "SLS-20250101-0008" := by
  have h := generate_voucher_spec "20250101" [1, 7] (by decide)
  rw [show ([1, 7].map (voucherFor "20250101")) =
      ["SLS-20250101-0001", "SLS-20250101-0007"] from by decide] at h
  rw [h]
  decide
